import Mathlib

/-!
Shallow embedding of the text-effect bot core (`src/bot.ts`):
the variant catalog, the inline-keyboard builder, the message envelope
(render and parse) and the callback step, together with theorems about
the properties the specification states for them.

JS strings are modelled as `List Char` (one `Char` per Unicode scalar
value).  JS `String.prototype.toLowerCase` is modelled on the ASCII
range, which covers every catalog label.  The JS regex `.` matches any
character except a line terminator, i.e. any of LF, CR, U+2028 and
U+2029, and the model of `/Label: (.*)/` stops its capture at exactly
those four characters.
-/

/-- ASCII lowercasing of one character, modelling JS `toLowerCase`
on the ASCII range (catalog labels are pure ASCII). -/
def asciiLower (c : Char) : Char :=
  if 'A' ≤ c ∧ c ≤ 'Z' then Char.ofNat (c.toNat + 32) else c

/-- Lowercase a whole string (list of scalar values). -/
def lowerStr (s : List Char) : List Char := s.map asciiLower

/-- One catalog entry: a one-character variant code and a human-readable
label, mirroring `{ code: TextEffectVariant; label: string }` in
`bot.ts`. -/
structure Effect where
  code : Char
  label : List Char
deriving DecidableEq

/-- The catalog `allEffects` of `bot.ts` (lines 44-48). -/
def allEffects : List Effect :=
  [⟨'w', "Monospace".data⟩, ⟨'b', "Bold".data⟩,
   ⟨'i', "Italic".data⟩, ⟨'d', "Doublestruck".data⟩,
   ⟨'o', "Circled".data⟩, ⟨'q', "Squared".data⟩]

/-- `effectCallbackCodeAccessor` of `bot.ts` (line 53): the callback
datum attached to a button. -/
def effectCallbackCodeAccessor (effectCode : Char) : List Char :=
  "effect-".data ++ [effectCode]

/-- `findEffectByLabel` of `bot.ts` (line 54): first catalog entry whose
lowercased label equals the lowercased query, projected to its code. -/
def findEffectByLabel (label : List Char) : Option Char :=
  (allEffects.find? (fun effect => lowerStr effect.label == lowerStr label)).map
    (fun effect => effect.code)

/-- An inline-keyboard button: visible label and callback datum,
as produced by grammy's `keyboard.text(label, data)`. -/
structure Button where
  label : List Char
  data : List Char
deriving DecidableEq

/-- A keyboard is its list of button rows; grammy's `new InlineKeyboard()`
starts as one empty row. -/
def emptyKeyboard : List (List Button) := [[]]

/-- grammy's `keyboard.text(...)`: append the button to the last row.
(grammy keyboards are never the empty list; `[[b]]` for that case keeps
the function total.) -/
def kbText : List (List Button) → Button → List (List Button)
  | [], b => [[b]]
  | [r], b => [r ++ [b]]
  | r :: rs, b => r :: kbText rs b

/-- grammy's `keyboard.row()`: open a new, empty row. -/
def kbRow (kb : List (List Button)) : List (List Button) := kb ++ [[]]

/-- lodash `chunk(l, 3)`: split into consecutive groups of three, the
last group possibly shorter. -/
def chunk3 {α : Type} : List α → List (List α)
  | [] => []
  | [a] => [[a]]
  | [a, b] => [[a, b]]
  | a :: b :: c :: rest => [a, b, c] :: chunk3 rest

/-- One iteration of the inner `forEach` of `createInlineKeyboard`:
`effect && keyboard.text(effect.label, accessor(effect.code)).row()` —
a found effect adds its button and then opens a new row; a miss
(`undefined` from `find`) does nothing. -/
def kbStep (kb : List (List Button)) (eo : Option Effect) : List (List Button) :=
  match eo with
  | none => kb
  | some e => kbRow (kbText kb ⟨e.label, effectCallbackCodeAccessor e.code⟩)

/-- `createInlineKeyboard` of `bot.ts` (lines 55-60): look each code up
in the catalog, chunk the results by 3, then fold the nested `forEach`
over a fresh keyboard. -/
def createInlineKeyboard (effectCodes : List Char) : List (List Button) :=
  (chunk3 (effectCodes.map (fun code => allEffects.find? (fun effect => effect.code == code)))).foldl
    (fun kb ch => ch.foldl kbStep kb) emptyKeyboard

/-- `textEffectResponse` of `bot.ts` (line 61): the rendered envelope.
A JS truthiness test guards the "Modified" line, so an absent *or empty*
`modified` yields only the "Original" line. -/
def textEffectResponse (original : List Char) (modified : Option (List Char) := none) : List Char :=
  "Original: ".data ++ original ++
    (match modified with
     | some m => if m = [] then [] else "\nModified: ".data ++ m
     | none => [])

/-- A JS line terminator: the four characters the regex `.` never
matches — LF, CR, LINE SEPARATOR (U+2028) and PARAGRAPH SEPARATOR
(U+2029). -/
def isLineTerm (c : Char) : Bool :=
  c == '\n' || c == '\r' || c == '\u2028' || c == '\u2029'

/-- The string holds no JS line terminator. -/
def noLineTerm (s : List Char) : Bool :=
  s.all (fun c => !(isLineTerm c))

/-- The capture of the JS regex `/Label: (.*)/`: at the first position
where `label` occurs as a substring, the run of characters after it up
to the next line terminator or the end; `none` when `label` never
occurs. -/
def firstMatchRest (label : List Char) : List Char → Option (List Char)
  | [] => if label = [] then some [] else none
  | c :: t =>
    if label.isPrefixOf (c :: t) then
      some (((c :: t).drop label.length).takeWhile (fun x => !(isLineTerm x)))
    else
      firstMatchRest label t

/-- `label` occurs as a substring: the regex `/label/` matches. -/
def containsSub (label : List Char) : List Char → Bool
  | [] => label == []
  | c :: t => label.isPrefixOf (c :: t) || containsSub label t

/-- Result type of `parseTextEffectResponse`:
`{ originalText: string, modifiedText?: string }`. -/
structure ParsedResponse where
  originalText : List Char
  modifiedText : Option (List Char)
deriving DecidableEq

/-- `parseTextEffectResponse` of `bot.ts` (lines 125-133): regex-extract
both lines; a missing "Original: " match falls back to the empty
string, a missing "Modified: " match to `undefined`. -/
def parseTextEffectResponse (response : List Char) : ParsedResponse :=
  { originalText := (firstMatchRest "Original: ".data response).getD []
    modifiedText := firstMatchRest "Modified: ".data response }

/-- Result of one callback-query interaction: the edited message text
and the codes offered on the fresh keyboard. -/
structure CallbackResult where
  newText : List Char
  offeredCodes : List Char
  keyboard : List (List Button)
deriving DecidableEq

/-- The callback handler of `bot.ts` (lines 136-142), parameterised over
the transcoder `apply` (`applyTextEffect` lives in `textEffects.ts`):
re-parse the message, re-derive the modified text from the parsed
*original*, and rebuild the keyboard from the full catalog minus the
just-applied code. -/
def callbackStep (apply : List Char → Char → List Char)
    (msgText : List Char) (effectCode : Char) : CallbackResult :=
  let originalText := (parseTextEffectResponse msgText).originalText
  let modifiedText := apply originalText effectCode
  let offered := (allEffects.map (fun e => e.code)).filter (fun code => code ≠ effectCode)
  { newText := textEffectResponse originalText (some modifiedText)
    offeredCodes := offered
    keyboard := createInlineKeyboard offered }

/-- Modelled from the spec: the repository imports `applyTextEffect`
from `./textEffects`, a file not present in the sources; §4.1-§4.2 of
the spec describe it.  Base code point of the uppercase run of each
variant (mathematical monospace, bold, italic, double-struck capitals;
circled capitals; squared capitals). -/
def upperBase (variant : Char) : Option Nat :=
  match variant with
  | 'w' => some 0x1D670
  | 'b' => some 0x1D400
  | 'i' => some 0x1D434
  | 'd' => some 0x1D538
  | 'o' => some 0x24B6
  | 'q' => some 0x1F130
  | _ => none

/-- Modelled from the spec: base code point of the lowercase run of
each variant (§4.1: a contiguous run per case). -/
def lowerBase (variant : Char) : Option Nat :=
  match variant with
  | 'w' => some 0x1D68A
  | 'b' => some 0x1D41A
  | 'i' => some 0x1D44E
  | 'd' => some 0x1D552
  | 'o' => some 0x24D0
  | 'q' => some 0x1F130
  | _ => none

/-- Modelled from the spec: base code point of the digit run for the
variants whose target block defines digit glyphs (§4.1: not all do;
the others pass digits through verbatim). -/
def digitBase (variant : Char) : Option Nat :=
  match variant with
  | 'w' => some 0x1D7F6
  | 'b' => some 0x1D7CE
  | 'd' => some 0x1D7D8
  | _ => none

/-- Modelled from the spec: per-scalar glyph mapping of one variant
(§4.1-§4.2).  Latin letters shift into the variant's contiguous run per
case, digits only when the variant has a digit run, and every other
scalar — and every scalar under an unknown variant — passes through
unchanged. -/
def glyphFor (variant : Char) (c : Char) : Char :=
  if 'A' ≤ c ∧ c ≤ 'Z' then
    match upperBase variant with
    | some base => Char.ofNat (base + (c.toNat - 'A'.toNat))
    | none => c
  else if 'a' ≤ c ∧ c ≤ 'z' then
    match lowerBase variant with
    | some base => Char.ofNat (base + (c.toNat - 'a'.toNat))
    | none => c
  else if '0' ≤ c ∧ c ≤ '9' then
    match digitBase variant with
    | some base => Char.ofNat (base + (c.toNat - '0'.toNat))
    | none => c
  else c

/-- Modelled from the spec: `applyTextEffect` of `textEffects.ts`
(§4.2): map the variant's glyph function over the scalar values of the
input, in order. -/
def applyTextEffect (text : List Char) (variant : Char) : List Char :=
  text.map (glyphFor variant)

/-- The button `createInlineKeyboard` builds for a found catalog entry:
its label and its callback datum. -/
def buttonOf (e : Effect) : Button :=
  ⟨e.label, effectCallbackCodeAccessor e.code⟩

/-! ### Helper lemmas about prefixes, substring search and `takeWhile` -/

theorem isPrefixOf_self_append (l r : List Char) : l.isPrefixOf (l ++ r) = true := by
  induction l with
  | nil => simp [List.isPrefixOf]
  | cons a t ih => simp [List.isPrefixOf, ih]

/-- A regex label match at position 0: the capture is the rest of the
line. -/
theorem fmr_self (label rest : List Char) (h : label ≠ []) :
    firstMatchRest label (label ++ rest) =
      some (rest.takeWhile (fun x => !(isLineTerm x))) := by
  match label with
  | a :: lab =>
    rw [List.cons_append]
    simp only [firstMatchRest]
    rw [show (a :: lab).isPrefixOf (a :: (lab ++ rest)) = true from
      isPrefixOf_self_append (a :: lab) rest]
    simp only [if_true]
    rw [show a :: (lab ++ rest) = (a :: lab) ++ rest from rfl, List.drop_left]

/-- A newline-free pattern that fails on `q` still fails when `q` is
extended past a newline. -/
theorem prefix_extend_false (lab : List Char) : ∀ (q z : List Char),
    '\n' ∉ lab → lab.isPrefixOf q = false →
    lab.isPrefixOf (q ++ '\n' :: z) = false := by
  induction lab with
  | nil => intro q z _ hq; simp [List.isPrefixOf] at hq
  | cons a lab ih =>
    intro q z hnl hq
    match q with
    | [] =>
      simp only [List.nil_append]
      simp only [List.isPrefixOf, Bool.and_eq_false_iff]
      left
      simp only [beq_eq_false_iff_ne, ne_eq]
      exact fun he => hnl (by simp [he])
    | b :: q' =>
      rw [List.cons_append]
      simp only [List.isPrefixOf, Bool.and_eq_false_iff] at hq ⊢
      rcases hq with hab | hpre
      · exact Or.inl hab
      · exact Or.inr (ih q' z (fun hm => hnl (List.mem_cons_of_mem a hm)) hpre)

/-- The regex finds a label exactly when the label occurs as a
substring. -/
theorem fmr_isSome (label : List Char) : ∀ (s : List Char),
    (firstMatchRest label s).isSome = containsSub label s := by
  intro s
  induction s with
  | nil =>
    by_cases h : label = [] <;> simp [firstMatchRest, containsSub, h]
  | cons c t ih =>
    by_cases h : label.isPrefixOf (c :: t) <;>
      simp [firstMatchRest, containsSub, h, ih]

theorem fmr_eq_none_of_not_containsSub (label s : List Char)
    (h : containsSub label s = false) : firstMatchRest label s = none := by
  cases ho : firstMatchRest label s with
  | none => rfl
  | some v =>
    have hv := fmr_isSome label s
    rw [ho, h] at hv
    simp at hv

/-- Searching for a newline-free label in `u ++ '\n' :: label ++ m`:
when `u` holds no occurrence, the match lands right after the newline
and captures the rest of that line. -/
theorem fmr_marker (lab : List Char) (hne : lab ≠ []) (hnl : '\n' ∉ lab) :
    ∀ (u m : List Char), containsSub lab u = false →
      firstMatchRest lab (u ++ '\n' :: (lab ++ m)) =
        some (m.takeWhile (fun x => !(isLineTerm x))) := by
  intro u
  induction u with
  | nil =>
    intro m _
    rw [List.nil_append]
    match lab, hne with
    | a :: lab', _ =>
      have ha : (a :: lab').isPrefixOf ('\n' :: ((a :: lab') ++ m)) = false := by
        simp only [List.isPrefixOf, Bool.and_eq_false_iff]
        left
        simp only [beq_eq_false_iff_ne, ne_eq]
        exact fun he => hnl (by simp [he])
      simp only [firstMatchRest, ha, if_false]
      exact fmr_self (a :: lab') m (by simp)
  | cons c u' ih =>
    intro m hc
    simp only [containsSub, Bool.or_eq_false_iff] at hc
    rw [List.cons_append]
    have hfalse : lab.isPrefixOf (c :: (u' ++ '\n' :: (lab ++ m))) = false := by
      rw [show c :: (u' ++ '\n' :: (lab ++ m)) = (c :: u') ++ '\n' :: (lab ++ m) from rfl]
      exact prefix_extend_false lab (c :: u') (lab ++ m) hnl hc.1
    match lab, hne with
    | a :: lab', _ =>
      simp only [firstMatchRest, hfalse, if_false]
      exact ih m hc.2

theorem takeWhile_noLineTerm (o : List Char) (h : noLineTerm o = true) :
    o.takeWhile (fun x => !(isLineTerm x)) = o := by
  induction o with
  | nil => rfl
  | cons c t ih =>
    simp only [noLineTerm, List.all_cons, Bool.and_eq_true] at h
    simp only [List.takeWhile, h.1]
    rw [ih h.2]

theorem takeWhile_until_term (o z : List Char) (h : noLineTerm o = true) :
    (o ++ '\n' :: z).takeWhile (fun x => !(isLineTerm x)) = o := by
  induction o with
  | nil => simp [List.takeWhile, isLineTerm]
  | cons c t ih =>
    simp only [noLineTerm, List.all_cons, Bool.and_eq_true] at h
    rw [List.cons_append]
    simp only [List.takeWhile, h.1]
    rw [ih h.2]

/-- Skipping one non-matching head character of the haystack. -/
theorem containsSub_mod_cons (c : Char) (t : List Char) (h : (c == 'M') = false) :
    containsSub "Modified: ".data (c :: t) = containsSub "Modified: ".data t := by
  have hm : "Modified: ".data = 'M' :: "odified: ".data := rfl
  have hp : ("Modified: ".data).isPrefixOf (c :: t) = false := by
    rw [hm]
    simp only [List.isPrefixOf, Bool.and_eq_false_iff]
    left
    simp only [beq_eq_false_iff_ne, ne_eq]
    simp only [beq_eq_false_iff_ne, ne_eq] at h
    exact Ne.symm h
  simp [containsSub, hp]

/-- No character of `"Original: "` is an `'M'`, so a search for
`"Modified: "` passes straight over the rendered prefix. -/
theorem containsSub_mod_origLabel (o : List Char) :
    containsSub "Modified: ".data ("Original: ".data ++ o) =
      containsSub "Modified: ".data o := by
  rw [show "Original: ".data ++ o =
    'O' :: 'r' :: 'i' :: 'g' :: 'i' :: 'n' :: 'a' :: 'l' :: ':' :: ' ' :: o from rfl]
  rw [containsSub_mod_cons 'O' _ (by decide)]
  rw [containsSub_mod_cons 'r' _ (by decide)]
  rw [containsSub_mod_cons 'i' _ (by decide)]
  rw [containsSub_mod_cons 'g' _ (by decide)]
  rw [containsSub_mod_cons 'i' _ (by decide)]
  rw [containsSub_mod_cons 'n' _ (by decide)]
  rw [containsSub_mod_cons 'a' _ (by decide)]
  rw [containsSub_mod_cons 'l' _ (by decide)]
  rw [containsSub_mod_cons ':' _ (by decide)]
  rw [containsSub_mod_cons ' ' _ (by decide)]

/-! ### Core round-trip lemmas for the envelope -/

/-- Parsing a two-line envelope rendered from a line-terminator-free
original and a non-empty, line-terminator-free modified recovers both
verbatim. -/
theorem parse_render_some (o m : List Char) (h1 : noLineTerm o = true)
    (h3 : containsSub "Modified: ".data o = false)
    (h4 : m ≠ []) (h5 : noLineTerm m = true) :
    parseTextEffectResponse (textEffectResponse o (some m)) =
      ⟨o, some m⟩ := by
  have hrender : textEffectResponse o (some m) =
      "Original: ".data ++ (o ++ '\n' :: ("Modified: ".data ++ m)) := by
    simp only [textEffectResponse, if_neg h4]
    simp [List.append_assoc]
  have horig :
      firstMatchRest "Original: ".data (textEffectResponse o (some m)) = some o := by
    rw [hrender, fmr_self _ _ (by simp), takeWhile_until_term o _ h1]
  have hmod :
      firstMatchRest "Modified: ".data (textEffectResponse o (some m)) = some m := by
    rw [hrender, show "Original: ".data ++ (o ++ '\n' :: ("Modified: ".data ++ m)) =
      ("Original: ".data ++ o) ++ '\n' :: ("Modified: ".data ++ m) by simp]
    rw [fmr_marker _ (by simp) (by decide) _ m
      (by rw [containsSub_mod_origLabel]; exact h3)]
    rw [takeWhile_noLineTerm m h5]
  simp [parseTextEffectResponse, horig, hmod]

/-- Parsing a one-line envelope rendered from a line-terminator-free
original recovers it, with no modified text. -/
theorem parse_render_none (o : List Char) (h1 : noLineTerm o = true)
    (h3 : containsSub "Modified: ".data o = false) :
    parseTextEffectResponse (textEffectResponse o none) = ⟨o, none⟩ := by
  have hrender : textEffectResponse o none = "Original: ".data ++ o := by
    simp [textEffectResponse]
  have horig :
      firstMatchRest "Original: ".data (textEffectResponse o none) = some o := by
    rw [hrender, fmr_self _ _ (by simp), takeWhile_noLineTerm o h1]
  have hmod :
      firstMatchRest "Modified: ".data (textEffectResponse o none) = none := by
    rw [hrender]
    exact fmr_eq_none_of_not_containsSub _ _
      (by rw [containsSub_mod_origLabel]; exact h3)
  simp [parseTextEffectResponse, horig, hmod]

/-! ### Helper lemmas about the keyboard builder -/

theorem kbText_join : ∀ (kb : List (List Button)) (b : Button),
    (kbText kb b).flatten = kb.flatten ++ [b]
  | [], b => by simp [kbText]
  | [r], b => by simp [kbText]
  | r :: r' :: rs, b => by
    simp [kbText, kbText_join (r' :: rs) b]

theorem kbStep_join (kb : List (List Button)) (eo : Option Effect) :
    (kbStep kb eo).flatten = kb.flatten ++ (eo.map buttonOf).toList := by
  cases eo <;> simp [kbStep, kbRow, kbText_join, buttonOf]

theorem innerFold_join : ∀ (ch : List (Option Effect)) (kb : List (List Button)),
    (ch.foldl kbStep kb).flatten =
      kb.flatten ++ ch.filterMap (fun eo => eo.map buttonOf) := by
  intro ch
  induction ch with
  | nil => intro kb; simp
  | cons eo ch ih =>
    intro kb
    rw [List.foldl_cons, ih (kbStep kb eo), kbStep_join]
    cases eo <;> simp

theorem outerFold_join : ∀ (chs : List (List (Option Effect))) (kb : List (List Button)),
    (chs.foldl (fun k ch => ch.foldl kbStep k) kb).flatten =
      kb.flatten ++ chs.flatten.filterMap (fun eo => eo.map buttonOf) := by
  intro chs
  induction chs with
  | nil => intro kb; simp
  | cons ch chs ih =>
    intro kb
    rw [List.foldl_cons, ih (ch.foldl kbStep kb), innerFold_join]
    simp [List.filterMap_append]

theorem chunk3_join {α : Type} : ∀ (l : List α), (chunk3 l).flatten = l
  | [] => rfl
  | [a] => rfl
  | [a, b] => rfl
  | a :: b :: c :: rest => by simp [chunk3, chunk3_join rest]

/-! ### Claim theorems -/

/-- C1 (counterexample): the unguarded round trip fails.  Rendering the
pair (original "Hi", modified "") yields the single line "Original: Hi"
because the JS truthiness test treats the empty string as absent, so
parsing returns an absent modified, not the empty string that was
rendered. -/
theorem roundTrip_fails_on_empty_modified :
    parseTextEffectResponse (textEffectResponse "Hi".data (some [])) ≠
      ⟨"Hi".data, some []⟩ := by decide

/-- C1 (amended): the round trip holds for every original that holds no
JS line terminator (LF, CR, U+2028, U+2029 — the characters the regex
dot stops at) and does not contain the substring "Modified: ", and
every modified that is either absent or present, non-empty and
line-terminator-free: parsing the rendered envelope returns exactly the
rendered pair. -/
theorem roundTrip_guarded (o : List Char) (mo : Option (List Char))
    (h1 : noLineTerm o = true)
    (h3 : containsSub "Modified: ".data o = false)
    (hm : ∀ m, mo = some m → m ≠ [] ∧ noLineTerm m = true) :
    parseTextEffectResponse (textEffectResponse o mo) = ⟨o, mo⟩ := by
  cases mo with
  | none => exact parse_render_none o h1 h3
  | some m => exact parse_render_some o m h1 h3 (hm m rfl).1 (hm m rfl).2

/-- C1 (witness): the guarded round trip at original "Hi" and modified
"HI". -/
theorem roundTrip_guarded_witness :
    noLineTerm "Hi".data = true ∧
      parseTextEffectResponse (textEffectResponse "Hi".data (some "HI".data)) =
        ⟨"Hi".data, some "HI".data⟩ :=
  ⟨by decide, roundTrip_guarded "Hi".data (some "HI".data) (by decide) (by decide)
    (by intro m hm; cases hm; exact ⟨by decide, by decide⟩)⟩

/-- C2 (counterexample): on the input "hello", which holds no
"Original: " label, parsing does not fail: it returns the fabricated
default original "" (and no modified text). -/
theorem parse_missing_original_counterexample :
    containsSub "Original: ".data "hello".data = false ∧
      parseTextEffectResponse "hello".data = ⟨[], none⟩ := by decide

/-- C2 (amended): for every input block in which the "Original: " label
is absent, parsing still succeeds and falls back to the empty string as
the original text (and extracts a modified line if one occurs), rather
than failing with an error. -/
theorem parse_missing_original_defaults (s : List Char)
    (h : containsSub "Original: ".data s = false) :
    (parseTextEffectResponse s).originalText = [] ∧
      (parseTextEffectResponse s).modifiedText =
        firstMatchRest "Modified: ".data s := by
  constructor
  · show (firstMatchRest "Original: ".data s).getD [] = []
    rw [fmr_eq_none_of_not_containsSub _ _ h]
    rfl
  · rfl

/-- C2 (witness): the amended behaviour at the input "hello". -/
theorem parse_missing_original_defaults_witness :
    containsSub "Original: ".data "hello".data = false ∧
      (parseTextEffectResponse "hello".data).originalText = [] :=
  ⟨by decide, (parse_missing_original_defaults "hello".data (by decide)).1⟩

/-- C3: for every transcoder `apply`, every rendered envelope whose
original `o` holds no JS line terminator and no "Modified: " substring
and whose modified `m` is non-empty and line-terminator-free, and every
selected variant `v`, the callback step edits the message to the
envelope of `o` and `apply o v` — the new modified text is derived by
applying `v` to the text of the "Original" line, never to the text of
the "Modified" line (the result does not depend on `m` at all). -/
theorem callback_applies_to_original
    (apply : List Char → Char → List Char) (o m : List Char) (v : Char)
    (h1 : noLineTerm o = true)
    (h3 : containsSub "Modified: ".data o = false)
    (h4 : m ≠ []) (h5 : noLineTerm m = true) :
    (callbackStep apply (textEffectResponse o (some m)) v).newText =
      textEffectResponse o (some (apply o v)) := by
  simp only [callbackStep]
  rw [parse_render_some o m h1 h3 h4 h5]

/-- C3 (witness): selecting Italic on the envelope of "Hi" with its
Bold transcription re-derives from "Hi", not from the bolded text. -/
theorem callback_applies_to_original_witness :
    (callbackStep applyTextEffect
        (textEffectResponse "Hi".data (some (applyTextEffect "Hi".data 'b'))) 'i').newText =
      textEffectResponse "Hi".data (some (applyTextEffect "Hi".data 'i')) :=
  callback_applies_to_original applyTextEffect "Hi".data
    (applyTextEffect "Hi".data 'b') 'i' (by decide) (by decide) (by decide) (by decide)

/-- C4: whatever message the callback is invoked on (so whatever the
previously offered set was), after selecting variant `v` the offered
set is exactly the full catalog minus `v`: a code is offered iff it is
a catalog code different from `v`. -/
theorem callback_offered_eq_catalog_minus
    (apply : List Char → Char → List Char) (msgText : List Char) (v c : Char) :
    c ∈ (callbackStep apply msgText v).offeredCodes ↔
      (c ∈ allEffects.map (fun e => e.code) ∧ c ≠ v) := by
  simp [callbackStep]

/-- C5 (counterexample): rendering original "Hello" with the present
modified "" does not produce the claimed two-line block: the JS
truthiness test drops the "Modified" line for an empty string. -/
theorem render_empty_modified_counterexample :
    textEffectResponse "Hello".data (some []) ≠
      "Original: ".data ++ "Hello".data ++ "\nModified: ".data ++ [] := by decide

/-- C5 (amended): for every original and every present *non-empty*
modified, rendering produces exactly the two-line block
"Original: " ++ original ++ "\nModified: " ++ modified; for an absent
(or empty) modified only the "Original" line is produced. -/
theorem render_format (o m : List Char) (h : m ≠ []) :
    textEffectResponse o (some m) =
        "Original: ".data ++ o ++ "\nModified: ".data ++ m ∧
      textEffectResponse o none = "Original: ".data ++ o ∧
      textEffectResponse o (some []) = "Original: ".data ++ o := by
  refine ⟨?_, ?_, ?_⟩ <;> simp [textEffectResponse, h]

/-- C5 (witness): the concrete case render("Hello", "Ｈｅｌｌｏ"). -/
theorem render_format_witness :
    ("Ｈｅｌｌｏ".data ≠ ([] : List Char)) ∧
      textEffectResponse "Hello".data (some "Ｈｅｌｌｏ".data) =
        "Original: ".data ++ "Hello".data ++ "\nModified: ".data ++ "Ｈｅｌｌｏ".data :=
  ⟨by decide, (render_format "Hello".data "Ｈｅｌｌｏ".data (by decide)).1⟩

/-- C6: the transcoder is 1:1 per scalar value: for every string and
every variant, the output has exactly as many Unicode scalar values as
the input. -/
theorem applyTextEffect_length (s : List Char) (v : Char) :
    (applyTextEffect s v).length = s.length :=
  List.length_map s (glyphFor v)

/-- C7 (code evaluation at the failing input): on the full six-code
catalog the keyboard builder produces six rows of one button each (plus
the trailing empty row grammy keeps open), not two rows of three — the
`.row()` call sits inside the per-button loop, defeating the
chunk-by-3. -/
theorem keyboard_six_codes_one_per_row :
    (createInlineKeyboard (allEffects.map (fun e => e.code))).map List.length =
      [1, 1, 1, 1, 1, 1, 0] := by decide

/-- C8: label lookup is case-insensitive and total: a returned code
belongs to a catalog entry whose lowercased label equals the lowercased
query, and the lookup returns absence exactly when no catalog entry
matches — never an error. -/
theorem findEffectByLabel_case_insensitive (label : List Char) :
    (∀ c, findEffectByLabel label = some c →
        ∃ e, e ∈ allEffects ∧ lowerStr e.label = lowerStr label ∧ e.code = c) ∧
      (findEffectByLabel label = none ↔
        ∀ e, e ∈ allEffects → lowerStr e.label ≠ lowerStr label) := by
  constructor
  · intro c hc
    simp only [findEffectByLabel, Option.map_eq_some'] at hc
    obtain ⟨e, he, hce⟩ := hc
    refine ⟨e, List.mem_of_find?_eq_some he, ?_, hce⟩
    have := List.find?_some he
    simpa using this
  · simp [findEffectByLabel, List.find?_eq_none]

/-- C8 (witness): looking up "BOLD" returns 'b', the code of the entry
labelled "Bold". -/
theorem findEffectByLabel_case_insensitive_witness :
    ∃ e, e ∈ allEffects ∧ lowerStr e.label = lowerStr "BOLD".data ∧ e.code = 'b' :=
  (findEffectByLabel_case_insensitive "BOLD".data).1 'b' (by decide)

/-- C9 (counterexample): the claim's guards, read with "newline" as
LF, are satisfied by the original "a" followed by a carriage return —
it holds no LF and neither label substring — and by the modified "x",
yet the round trip fails there: the JS regex dot stops at the CR, so
parsing the rendered envelope truncates the original to "a". -/
theorem roundTrip_clean_fails_on_carriage_return :
    ('\n' ∉ ['a', '\r']) ∧
      containsSub "Original: ".data ['a', '\r'] = false ∧
      containsSub "Modified: ".data ['a', '\r'] = false ∧
      (['x'] ≠ ([] : List Char)) ∧ ('\n' ∉ ['x']) ∧
      parseTextEffectResponse (textEffectResponse ['a', '\r'] (some ['x'])) ≠
        ⟨['a', '\r'], some ['x']⟩ := by decide

/-- C9 (amended): the guarded round trip with "no newline" strengthened
to "no JS line terminator" (LF, CR, U+2028, U+2029 — all the characters
the regex capture stops at): for every original free of line
terminators and of the substrings "Original: " and "Modified: ",
parsing the envelope rendered with any non-empty line-terminator-free
modified returns exactly that pair, and parsing the envelope rendered
without a modified returns the original and absence. -/
theorem parse_render_clean_roundTrip (o : List Char) (h1 : noLineTerm o = true)
    (_h2 : containsSub "Original: ".data o = false)
    (h3 : containsSub "Modified: ".data o = false) :
    (∀ m, m ≠ [] → noLineTerm m = true →
        parseTextEffectResponse (textEffectResponse o (some m)) = ⟨o, some m⟩) ∧
      parseTextEffectResponse (textEffectResponse o none) = ⟨o, none⟩ :=
  ⟨fun m h4 h5 => parse_render_some o m h1 h3 h4 h5, parse_render_none o h1 h3⟩

/-- C9 (witness): the guarded round trip at original "Hi", with and
without the modified text "HI". -/
theorem parse_render_clean_roundTrip_witness :
    noLineTerm "Hi".data = true ∧
      parseTextEffectResponse (textEffectResponse "Hi".data (some "HI".data)) =
        ⟨"Hi".data, some "HI".data⟩ ∧
      parseTextEffectResponse (textEffectResponse "Hi".data none) =
        ⟨"Hi".data, none⟩ :=
  ⟨by decide,
    (parse_render_clean_roundTrip "Hi".data (by decide) (by decide) (by decide)).1
      "HI".data (by decide) (by decide),
    (parse_render_clean_roundTrip "Hi".data (by decide) (by decide) (by decide)).2⟩

/-- C10: the buttons of the keyboard built from any code list are, in
input order, exactly one button per code found in the catalog — carrying
that entry's label and callback datum — and nothing (no button, no
error) for a code the catalog lacks. -/
theorem createInlineKeyboard_buttons (effectCodes : List Char) :
    (createInlineKeyboard effectCodes).flatten =
      effectCodes.filterMap (fun code =>
        (allEffects.find? (fun effect => effect.code == code)).map buttonOf) := by
  unfold createInlineKeyboard
  rw [outerFold_join, chunk3_join]
  simp only [emptyKeyboard, List.flatten_cons, List.flatten_nil,
    List.nil_append, List.filterMap_map]
  rfl
